import Mathlib

/-!
Shallow embedding of the gtfs-rt-alerts-translation-lambda core logic
(src/gtfs_translation): association-list models of the Python dictionaries,
the feed-processor string pipeline, translation application, URL
localization, the upload decision, the Smartling retry loop, and the
enhanced-JSON fill-only merge.
-/

namespace Gtfs

/-! ### Association lists modelling Python dictionaries -/

/-- First-match lookup in an association list, the read semantics of a
Python dict represented as a list of key/value pairs. -/
def alookup {κ α : Type} [DecidableEq κ] : List (κ × α) → κ → Option α
  | [], _ => none
  | (k, v) :: rest, key => if k = key then some v else alookup rest key

/-- In-place update of a Python dict: replace the value at an existing key,
or append the binding at the end (dict insertion order). -/
def aset {κ α : Type} [DecidableEq κ] : List (κ × α) → κ → α → List (κ × α)
  | [], k, v => [(k, v)]
  | (k', v') :: rest, k, v =>
      if k' = k then (k', v) :: rest else (k', v') :: aset rest k v

/-- Python `key in dict`. -/
def hasKey {κ α : Type} [DecidableEq κ] (l : List (κ × α)) (k : κ) : Bool :=
  (alookup l k).isSome

/-! ### String helpers mirroring the Python builtins used by the code -/

/-- Python str.strip(): remove leading and trailing whitespace. -/
def pyStrip (s : String) : String :=
  ⟨((s.data.dropWhile Char.isWhitespace).reverse.dropWhile Char.isWhitespace).reverse⟩

/-- Helper for substring search over character lists. -/
def isSubChars (pat : List Char) : List Char → Bool
  | [] => pat.isEmpty
  | c :: rest => pat.isPrefixOf (c :: rest) || isSubChars pat rest

/-- Python `pat in s` on strings: substring containment. -/
def strContainsSub (s pat : String) : Bool :=
  isSubChars pat.data s.data

/-! ### TranslatedString (protobuf) and its JSON form -/

/-- One entry of a GTFS-rt TranslatedString; proto3 scalar fields default
to the empty string. -/
structure Translation where
  language : String
  text : String
  deriving DecidableEq, Repr

/-- A TranslatedString is the ordered list of its translation entries. -/
abbrev TranslatedString := List Translation

/-- FeedProcessor._get_english_text: the first entry whose language is falsy
(empty) or "en". -/
def getEnglishText : TranslatedString → Option String
  | [] => none
  | t :: rest =>
      if t.language = "" ∨ t.language = "en" then some t.text else getEnglishText rest

/-- Per-English map of per-language translations: the inner dict of the
processor's translation_map. -/
abbrev LangMap := List (String × String)

/-- The processor's translation_map: English text to per-language translations. -/
abbrev TransMap := List (String × LangMap)

/-- Reading translation_map[english].get(lang) on a defaultdict: a missing
English key behaves as the empty inner dict. -/
def lookupTM (m : TransMap) (english lang : String) : Option String :=
  alookup ((alookup m english).getD []) lang

/-- The entries FeedProcessor._apply_translations appends to a
TranslatedString, in target-language order.  The set of existing languages
is computed once, before any entry is appended. -/
def pbAdditions (ts : TranslatedString) (m : TransMap) (targetLangs : List String) :
    TranslatedString :=
  match getEnglishText ts with
  | none => []
  | some englishText =>
      targetLangs.filterMap (fun lang =>
        if lang ∈ ts.map Translation.language then none
        else
          match lookupTM m englishText lang with
          | none => none
          | some translatedText =>
              if translatedText ≠ englishText ∨ pyStrip englishText = "" then
                some ⟨lang, translatedText⟩
              else none)

/-- FeedProcessor._apply_translations: mutation of ts modelled as appending
the new entries at the end. -/
def applyTranslations (ts : TranslatedString) (m : TransMap) (targetLangs : List String) :
    TranslatedString :=
  ts ++ pbAdditions ts m targetLangs

/-- One entry of a JSON TranslatedString; both keys are optional in the
raw tree. -/
structure JTranslation where
  language : Option String
  text : Option String
  deriving DecidableEq, Repr

/-- English detection of _apply_translations_json: the loop has no break,
so the last matching entry wins; a missing text key defaults to "". -/
def getEnglishTextJson (trs : List JTranslation) : Option String :=
  trs.foldl
    (fun acc t =>
      if t.language = some "en" ∨ t.language = none ∨ t.language = some "" then
        some (t.text.getD "")
      else acc)
    none

/-- The languages _apply_translations_json collects into existing_langs:
only truthy (present and non-empty) language values. -/
def existingLangsJson (trs : List JTranslation) : List String :=
  trs.filterMap (fun t =>
    match t.language with
    | some l => if l = "" then none else some l
    | none => none)

/-- The entries _apply_translations_json appends to the JSON translation list. -/
def jsonAdditions (trs : List JTranslation) (m : TransMap) (targetLangs : List String) :
    List JTranslation :=
  match getEnglishTextJson trs with
  | none => []
  | some englishText =>
      targetLangs.filterMap (fun lang =>
        if lang ∈ existingLangsJson trs then none
        else
          match lookupTM m englishText lang with
          | none => none
          | some translatedText =>
              if translatedText ≠ englishText ∨ pyStrip englishText = "" then
                some ⟨some lang, some translatedText⟩
              else none)

/-- FeedProcessor._apply_translations_json, modelled as appending the new
entries at the end of the translation list. -/
def applyTranslationsJson (trs : List JTranslation) (m : TransMap) (targetLangs : List String) :
    List JTranslation :=
  trs ++ jsonAdditions trs m targetLangs

/-! ### URL localizer -/

/-- Python substring test `"locale=" in url`. -/
def hasLocaleSubstr (url : String) : Bool :=
  strContainsSub url ("locale=")

/-- Python substring test `"?" in url`. -/
def hasQueryMark (url : String) : Bool :=
  url.data.contains '?'

/-- The English URL found by _process_url: text of the first entry with a
falsy or "en" language, defaulting to the empty string. -/
def englishUrlOf (ts : TranslatedString) : String :=
  ((ts.find? (fun t => t.language == "" || t.language == "en")).map Translation.text).getD ""

/-- FeedProcessor._process_url: per-language URL variants appended at the end. -/
def processUrl (ts : TranslatedString) (targetLangs : List String) : TranslatedString :=
  let englishUrl := englishUrlOf ts
  if englishUrl = "" then ts
  else
    ts ++ targetLangs.filterMap (fun lang =>
      if lang ∈ ts.map Translation.language then none
      else if hasLocaleSubstr englishUrl then some ⟨lang, englishUrl⟩
      else
        some ⟨lang,
          englishUrl ++ (if hasQueryMark englishUrl then "&" else "?") ++ "locale=" ++ lang⟩)

/-! ### FeedProcessor.process_feed, string-level pipeline

The pipeline is modelled at the level of the translation map: the new
feed's English texts (the keys of new_english_map, in gathering order),
the old feed's translations (old_translation_map), the target languages,
the translator's always_translate_all flag, and the provider as a function
from (texts, target languages) to the per-language result lists
(translations_by_lang.items() in iteration order). -/

/-- Step 3 of process_feed: seed the translation map with the old feed's
translations restricted to the new English texts. -/
def seedMap (newEnglish : List String) (oldMap : TransMap) : TransMap :=
  newEnglish.map (fun e => (e, (alookup oldMap e).getD []))

/-- The translations_reused metric as the code computes it: entries whose
English text strips to non-empty, counting each target language present. -/
def reusedCount (m : TransMap) (targetLangs : List String) : Nat :=
  (m.map (fun p =>
    if pyStrip p.1 = "" then 0 else targetLangs.countP (fun lang => hasKey p.2 lang))).sum

/-- Modelled from the claim's words for C6: the sum, over every entry of
the merged map and over every target language, of 1 when that language is
present in the entry (no condition on the English text). -/
def claimReusedCount (m : TransMap) (targetLangs : List String) : Nat :=
  (m.map (fun p => targetLangs.countP (fun lang => hasKey p.2 lang))).sum

/-- Step 4 of process_feed: the missing_english list. -/
def missingEnglish (m : TransMap) (targetLangs : List String) : List String :=
  (m.filter (fun p =>
    pyStrip p.1 != "" && targetLangs.any (fun lang => !(hasKey p.2 lang)))).map Prod.fst

/-- The all_needed_english request set, honoring always_translate_all. -/
def requestSet (m : TransMap) (targetLangs : List String) (alwaysAll : Bool) : List String :=
  let missing := missingEnglish m targetLangs
  if alwaysAll then
    if missing.isEmpty then [] else (m.filter (fun p => pyStrip p.1 != "")).map Prod.fst
  else missing

/-- translation_map[english][lang] = t on a defaultdict: update the inner
dict in place, creating an empty entry first when the key is absent. -/
def msetEntry (m : TransMap) (e lang t : String) : TransMap :=
  match alookup m e with
  | some tr => aset m e (aset tr lang t)
  | none => m ++ [(e, [(lang, t)])]

/-- The inner write loop of process_feed step 7 for one language: zip the
request set against that language's results and store the non-null ones. -/
def applyLangResults (m : TransMap) (needed : List String) (lang : String)
    (trs : List (Option String)) : TransMap :=
  (needed.zip trs).foldl
    (fun acc p =>
      match p.2 with
      | some t => msetEntry acc p.1 lang t
      | none => acc)
    m

/-- The full write loop over translations_by_lang, also accumulating the
strings_translated count of non-null results. -/
def applyProviderResults (m : TransMap) (needed : List String)
    (results : List (String × List (Option String))) : TransMap × Nat :=
  results.foldl
    (fun acc p =>
      (applyLangResults acc.1 needed p.1 p.2, acc.2 + p.2.countP Option.isSome))
    (m, 0)

/-- Step 8 of process_feed: force every target language of an
empty-or-whitespace English text to the empty string. -/
def forceEmpty (m : TransMap) (targetLangs : List String) : TransMap :=
  m.map (fun p =>
    if pyStrip p.1 = "" then (p.1, targetLangs.foldl (fun a lang => aset a lang "") p.2)
    else p)

/-- The observable outcome of the string pipeline: the final translation
map, the texts sent to the provider, and the two map-level metrics. -/
structure StringProcResult where
  finalMap : TransMap
  request : List String
  translationsReused : Nat
  stringsTranslated : Nat
  deriving DecidableEq, Repr

/-- FeedProcessor.process_feed, steps 3 to 8, at the translation-map level. -/
def processStrings (newEnglish : List String) (oldMap : TransMap) (targetLangs : List String)
    (alwaysAll : Bool)
    (provider : List String → List String → List (String × List (Option String))) :
    StringProcResult :=
  let m0 := seedMap newEnglish oldMap
  let reused := reusedCount m0 targetLangs
  let req := requestSet m0 targetLangs alwaysAll
  let res := if req.isEmpty then (m0, 0) else applyProviderResults m0 req (provider req targetLangs)
  { finalMap := forceEmpty res.1 targetLangs
    request := req
    translationsReused := reused
    stringsTranslated := res.2 }

/-! ### Upload decision (lambda_handler.should_upload) -/

/-- The feed header; only the timestamp takes part in the upload decision. -/
structure FeedHeader where
  timestamp : Nat
  deriving DecidableEq, Repr

/-- The parsed feed as seen by should_upload. -/
structure FeedMessage where
  header : FeedHeader
  deriving DecidableEq, Repr

/-- The run metrics record of the processor. -/
structure ProcessingMetrics where
  alerts_processed : Nat
  strings_translated : Nat
  translations_reused : Nat
  deriving DecidableEq, Repr

/-- lambda_handler.should_upload. -/
def should_upload (old_feed : Option FeedMessage) (new_feed : FeedMessage)
    (metrics : Option ProcessingMetrics) : Bool :=
  match old_feed with
  | none => true
  | some old =>
      if old.header.timestamp ≠ new_feed.header.timestamp then true
      else
        match metrics with
        | none => true
        | some m => m.strings_translated > 0

/-! ### Smartling retry loop (_translate_batch_single_lang) -/

/-- Outcome of one _do_translate_batch call: a successful result list or an
HTTPStatusError with the given status code. -/
inductive HttpResult where
  | ok (translations : List String)
  | err (status : Nat)
  deriving DecidableEq, Repr

/-- How _translate_batch_single_lang ends: returning a result, re-raising
an HTTPStatusError from inside the loop, raising the wrapper error after
the loop exhausts its five attempts, or the unreachable fallthrough. -/
inductive CallOutcome where
  | success (translations : List String)
  | raised (status : Nat)
  | exhausted (lastStatus : Nat)
  | unexpectedExit
  deriving DecidableEq, Repr

/-- The retry loop of _translate_batch_single_lang, driven by an oracle
giving the outcome of each successive _do_translate_batch call; the Nat is
the number of loop attempts left (max_attempts = 5 initially).  A 401
clears the cached token and continues the loop; a 429 continues unless the
current attempt is the last; any other status re-raises.  An oracle
shorter than the attempts actually made does not model a real run. -/
def translateLoop : List HttpResult → Nat → Option Nat → CallOutcome
  | _, 0, some s => .exhausted s
  | _, 0, none => .unexpectedExit
  | [], _ + 1, _ => .unexpectedExit
  | r :: rest, n + 1, _last =>
      match r with
      | .ok v => .success v
      | .err status =>
          if status = 401 then translateLoop rest n (some 401)
          else if status = 429 then
            if 1 ≤ n then translateLoop rest n (some 429) else .raised 429
          else .raised status

/-- SmartlingTranslator._translate_batch_single_lang with max_attempts = 5. -/
def translate_batch_single_lang (responses : List HttpResult) : CallOutcome :=
  translateLoop responses 5 none

/-! ### Enhanced-JSON fill-only merge (FeedProcessor._merge_enhanced_fields) -/

/-- A JSON value; objects are ordered key/value lists, matching Python
dict insertion order. -/
inductive Json where
  | null
  | str (s : String)
  | num (n : Int)
  | bool (b : Bool)
  | arr (elems : List Json)
  | obj (fields : List (String × Json))
  deriving Repr

mutual

/-- Structural equality of JSON values, the model of Python == on parsed
JSON (only hashable values ever serve as dict keys here). -/
def Json.beq : Json → Json → Bool
  | .null, .null => true
  | .str a, .str b => a == b
  | .num a, .num b => a == b
  | .bool a, .bool b => a == b
  | .arr a, .arr b => Json.beqList a b
  | .obj a, .obj b => Json.beqFields a b
  | _, _ => false

/-- Elementwise equality of JSON arrays. -/
def Json.beqList : List Json → List Json → Bool
  | [], [] => true
  | x :: xs, y :: ys => Json.beq x y && Json.beqList xs ys
  | _, _ => false

/-- Pairwise equality of JSON object field lists. -/
def Json.beqFields : List (String × Json) → List (String × Json) → Bool
  | [], [] => true
  | (k, v) :: xs, (k', v') :: ys => k == k' && Json.beq v v' && Json.beqFields xs ys
  | _, _ => false

end

/-- Equality of optional JSON values (Python keys, where None stands for a
null or absent identifier). -/
def jkeyEq : Option Json → Option Json → Bool
  | none, none => true
  | some a, some b => Json.beq a b
  | _, _ => false

/-- First-match lookup in the identifier-keyed entity index. -/
def jlookupK {α : Type} : List (Option Json × α) → Option Json → Option α
  | [], _ => none
  | (k, v) :: rest, key => if jkeyEq k key then some v else jlookupK rest key

/-- Dict write in the identifier-keyed entity index: overwrite in place or
append, as a Python dict comprehension does for repeated keys. -/
def jsetK {α : Type} : List (Option Json × α) → Option Json → α → List (Option Json × α)
  | [], k, v => [(k, v)]
  | (k', v') :: rest, k, v =>
      if jkeyEq k' k then (k', v) :: rest else (k', v') :: jsetK rest k v

/-- Python's view of a JSON value used as a dict-comprehension key: JSON
null becomes Python None, indistinguishable from an absent key. -/
def pyVal : Json → Option Json
  | .null => none
  | v => some v

/-- Python entity.get("id"): none when the key is absent or its value is
JSON null. -/
def entityIdOf (fields : List (String × Json)) : Option Json :=
  match alookup fields "id" with
  | none => none
  | some v => pyVal v

/-- The orig_entities dict comprehension: entities carrying an "id" key,
keyed by its Python value, later entries overwriting earlier ones. -/
def origIndex (origEntities : List Json) : List (Option Json × Json) :=
  origEntities.foldl
    (fun acc e =>
      match e with
      | .obj fs =>
          match alookup fs "id" with
          | some v => jsetK acc (pyVal v) e
          | none => acc
      | _ => acc)
    []

/-- The sequential fill-only loop: for every original key absent from the
current dict (including keys just filled), append its binding. -/
def fillOnly (cur orig : List (String × Json)) : List (String × Json) :=
  orig.foldl
    (fun acc kv => if hasKey acc kv.1 then acc else acc ++ [kv])
    cur

/-- The alert-level pass: when both the (already entity-filled) entity and
the original entity carry an object-valued "alert", replace it with the
fill-only merge of the two alerts. -/
def mergeAlertInto (entityFields origFields : List (String × Json)) : List (String × Json) :=
  match alookup entityFields "alert", alookup origFields "alert" with
  | some (.obj a), some (.obj oa) => aset entityFields "alert" (.obj (fillOnly a oa))
  | _, _ => entityFields

/-- The body of the per-entity loop of _merge_enhanced_fields, for an
object entity: look the identifier up in the original index (a falsy hit,
the empty dict, is skipped like a miss), fill entity-level keys, then merge
the alert level. -/
def mergeEntityFields (idx : List (Option Json × Json)) (fs : List (String × Json)) : Json :=
  match jlookupK idx (entityIdOf fs) with
  | some (.obj ofs) =>
      if ofs.isEmpty then .obj fs
      else .obj (mergeAlertInto (fillOnly fs ofs) ofs)
  | _ => .obj fs

/-- The per-entity loop body of _merge_enhanced_fields. -/
def mergeEntity (idx : List (Option Json × Json)) (e : Json) : Json :=
  match e with
  | .obj fs => mergeEntityFields idx fs
  | _ => e

/-- Python dict.get("entity", []) restricted to an array value; the loop
body requires a list to iterate. -/
def entityList (j : Json) : List Json :=
  match j with
  | .obj fs =>
      match alookup fs "entity" with
      | some (.arr es) => es
      | _ => []
  | _ => []

/-- FeedProcessor._merge_enhanced_fields: the in-place mutation of the
current tree, modelled as rebuilding its entity array. -/
def mergeEnhancedFields (current original : Json) : Json :=
  let idx := origIndex (entityList original)
  match current with
  | .obj fs =>
      match alookup fs "entity" with
      | some (.arr es) => .obj (aset fs "entity" (.arr (es.map (mergeEntity idx))))
      | _ => current
  | _ => current

/-- The alert object of an entity, as a key/value list; empty when absent
or not an object. -/
def alertFieldsOf (fields : List (String × Json)) : List (String × Json) :=
  match alookup fields "alert" with
  | some (.obj a) => a
  | _ => []

/-- Splitting a query string at ampersands into its parameters. -/
def splitOnAmp : List Char → List (List Char)
  | [] => [[]]
  | c :: rest =>
      match splitOnAmp rest with
      | [] => [[c]]
      | h :: t => if c = '&' then [] :: h :: t else (c :: h) :: t


/-- Modelled from the claim's words for C9: the URL "contains a locale
query parameter" when its query string (the part after the first question
mark) has a parameter whose name is locale. -/
def claimHasLocaleQueryParam (url : String) : Bool :=
  match url.data.dropWhile (fun c => c ≠ '?') with
  | [] => false
  | _ :: query =>
      (splitOnAmp query).any (fun p => p.takeWhile (fun c => c ≠ '=') = ("locale").data)

/-- A sample derived-tree entity: identifier e1, an alert with only a
header key. -/
def sampleCurrentEntity : List (String × Json) :=
  [("id", .str "e1"), ("alert", .obj [("header", .str "h")])]

/-- A sample original-tree entity for the same identifier, carrying an
enhanced entity-level key and extra alert-level keys. -/
def sampleOriginalEntity : List (String × Json) :=
  [("id", .str "e1"), ("effect_detail", .str "DETOUR"),
   ("alert", .obj [("severity", .num 3), ("header", .str "orig")])]

/-- Fields of the sample derived tree. -/
def sampleCurrentFields : List (String × Json) :=
  [("entity", .arr [.obj sampleCurrentEntity])]

/-- The sample derived tree. -/
def sampleCurrent : Json := .obj sampleCurrentFields

/-- The sample original overlay tree. -/
def sampleOriginal : Json := .obj [("entity", .arr [.obj sampleOriginalEntity])]

/-- The merge of the sample entity against its original. -/
def sampleMergedEntity : List (String × Json) :=
  mergeAlertInto (fillOnly sampleCurrentEntity sampleOriginalEntity) sampleOriginalEntity

/-! ### Helper lemmas about the apply functions -/

theorem alookup_aset_self {κ α : Type} [DecidableEq κ] (l : List (κ × α)) (k : κ) (v : α) :
    alookup (aset l k v) k = some v := by
  induction l with
  | nil => simp [aset, alookup]
  | cons hd tl ih =>
    obtain ⟨k', v'⟩ := hd
    by_cases h : k' = k
    · simp [aset, alookup, h]
    · simp [aset, alookup, h, ih]

theorem alookup_aset_ne {κ α : Type} [DecidableEq κ] (l : List (κ × α)) (k k' : κ) (v : α)
    (h : k ≠ k') : alookup (aset l k v) k' = alookup l k' := by
  induction l with
  | nil => simp [aset, alookup, h]
  | cons hd tl ih =>
    obtain ⟨k0, v0⟩ := hd
    by_cases h0 : k0 = k
    · subst h0
      simp [aset, alookup, h]
    · simp only [aset, if_neg h0]
      by_cases h1 : k0 = k'
      · simp [alookup, h1]
      · simp [alookup, h1, ih]

theorem alookup_append {κ α : Type} [DecidableEq κ] (l₁ l₂ : List (κ × α)) (k : κ) :
    alookup (l₁ ++ l₂) k =
      match alookup l₁ k with
      | some v => some v
      | none => alookup l₂ k := by
  induction l₁ with
  | nil => simp [alookup]
  | cons hd tl ih =>
    obtain ⟨k0, v0⟩ := hd
    by_cases h : k0 = k
    · simp [alookup, h]
    · simp [alookup, h, ih]

theorem alookup_aset_isSome {κ α : Type} [DecidableEq κ] (l : List (κ × α)) (k k' : κ) (v : α)
    (h : (alookup l k').isSome) : (alookup (aset l k v) k').isSome := by
  by_cases hk : k = k'
  · subst hk
    simp [alookup_aset_self]
  · rwa [alookup_aset_ne _ _ _ _ hk]



theorem pbAdditions_inv {ts : TranslatedString} {m : TransMap} {tls : List String}
    {t : Translation} (ht : t ∈ pbAdditions ts m tls) :
    ∃ e, getEnglishText ts = some e ∧ t.language ∈ tls
      ∧ t.language ∉ ts.map Translation.language
      ∧ lookupTM m e t.language = some t.text
      ∧ (t.text ≠ e ∨ pyStrip e = "") := by
  unfold pbAdditions at ht
  cases he : getEnglishText ts with
  | none => rw [he] at ht; simp at ht
  | some e =>
    rw [he] at ht
    rcases List.mem_filterMap.mp ht with ⟨lang, hlang, hf⟩
    by_cases hex : lang ∈ ts.map Translation.language
    · simp [hex] at hf
    · rw [if_neg hex] at hf
      split at hf
      · cases hf
      · rename_i tt hlk
        split at hf
        · rename_i hc
          cases hf
          exact ⟨e, rfl, hlang, hex, hlk, hc⟩
        · cases hf

theorem jsonAdditions_inv {trs : List JTranslation} {m : TransMap} {tls : List String}
    {t : JTranslation} (ht : t ∈ jsonAdditions trs m tls) :
    ∃ e lang, getEnglishTextJson trs = some e ∧ lang ∈ tls
      ∧ lang ∉ existingLangsJson trs ∧ t.language = some lang
      ∧ ∃ tt, t.text = some tt ∧ lookupTM m e lang = some tt
      ∧ (tt ≠ e ∨ pyStrip e = "") := by
  unfold jsonAdditions at ht
  cases he : getEnglishTextJson trs with
  | none => rw [he] at ht; simp at ht
  | some e =>
    rw [he] at ht
    rcases List.mem_filterMap.mp ht with ⟨lang, hlang, hf⟩
    by_cases hex : lang ∈ existingLangsJson trs
    · simp [hex] at hf
    · rw [if_neg hex] at hf
      split at hf
      · cases hf
      · rename_i tt hlk
        split at hf
        · rename_i hc
          cases hf
          exact ⟨e, lang, rfl, hlang, hex, rfl, tt, rfl, hlk, hc⟩
        · cases hf

theorem mem_existingLangsJson {trs : List JTranslation} {lang : String}
    (h : some lang ∈ trs.map JTranslation.language) (hne : lang ≠ "") :
    lang ∈ existingLangsJson trs := by
  rcases List.mem_map.mp h with ⟨t, hmem, hl⟩
  exact List.mem_filterMap.mpr ⟨t, hmem, by rw [hl]; simp [hne]⟩

/-! ### Claim theorems -/

/-- C1: for every TranslatedString field (protobuf and JSON alike) and every
target language, if the field already carries an entry for that language
before translation application, then applying translations leaves every
existing (language, text) pair in place unchanged and adds no further entry
for that language: synchronization never overwrites an existing explicit
translation. -/
theorem applyTranslations_preserves_existing
    (ts : TranslatedString) (jts : List JTranslation) (m : TransMap)
    (tls : List String) (lang : String)
    (hpb : lang ∈ ts.map Translation.language)
    (hjs : some lang ∈ jts.map JTranslation.language) (hne : lang ≠ "") :
    ((applyTranslations ts m tls).take ts.length = ts
      ∧ (applyTranslations ts m tls).countP (fun t => t.language == lang)
          = ts.countP (fun t => t.language == lang))
    ∧ ((applyTranslationsJson jts m tls).take jts.length = jts
      ∧ (applyTranslationsJson jts m tls).countP (fun t => t.language == some lang)
          = jts.countP (fun t => t.language == some lang)) := by
  refine ⟨⟨List.take_left ts _, ?_⟩, ⟨List.take_left jts _, ?_⟩⟩
  · rw [applyTranslations, List.countP_append]
    have h0 : (pbAdditions ts m tls).countP (fun t => t.language == lang) = 0 := by
      rw [List.countP_eq_zero]
      intro t ht
      rcases pbAdditions_inv ht with ⟨e, _, _, hnm, _, _⟩
      simp only [beq_iff_eq]
      intro hl
      exact hnm (hl ▸ hpb)
    omega
  · rw [applyTranslationsJson, List.countP_append]
    have h0 : (jsonAdditions jts m tls).countP (fun t => t.language == some lang) = 0 := by
      rw [List.countP_eq_zero]
      intro t ht
      rcases jsonAdditions_inv ht with ⟨e, lang', _, _, hnm, hl, _⟩
      simp only [beq_iff_eq, hl, Option.some.injEq]
      intro hll
      exact hnm (hll ▸ mem_existingLangsJson hjs hne)
    omega

/-- Witness for C1 at a concrete field that already carries an "es" entry. -/
theorem applyTranslations_preserves_existing_witness :
    ("es" ∈ ([⟨"en", "Delay"⟩, ⟨"es", "Viejo"⟩] : TranslatedString).map Translation.language)
    ∧ ((applyTranslations [⟨"en", "Delay"⟩, ⟨"es", "Viejo"⟩]
          [("Delay", [("es", "Nuevo")])] ["es"]).take 2
            = [⟨"en", "Delay"⟩, ⟨"es", "Viejo"⟩]
      ∧ (applyTranslations [⟨"en", "Delay"⟩, ⟨"es", "Viejo"⟩]
          [("Delay", [("es", "Nuevo")])] ["es"]).countP (fun t => t.language == "es")
            = ([⟨"en", "Delay"⟩, ⟨"es", "Viejo"⟩] : TranslatedString).countP
                (fun t => t.language == "es")) :=
  ⟨by decide,
    ((applyTranslations_preserves_existing [⟨"en", "Delay"⟩, ⟨"es", "Viejo"⟩]
      [⟨some "en", some "Delay"⟩, ⟨some "es", some "Viejo"⟩]
      [("Delay", [("es", "Nuevo")])] ["es"] "es"
      (by decide) (by decide) (by decide)).1 : _)⟩

/-- C2: the upload decision returns true when the old feed is absent;
true when the header timestamps differ; and otherwise true exactly when
the strings_translated metric is positive. -/
theorem should_upload_spec (old nf : FeedMessage) (m : ProcessingMetrics)
    (mo : Option ProcessingMetrics) :
    should_upload none nf mo = true
    ∧ (old.header.timestamp ≠ nf.header.timestamp → should_upload (some old) nf mo = true)
    ∧ (old.header.timestamp = nf.header.timestamp →
        (should_upload (some old) nf (some m) = true ↔ 0 < m.strings_translated)) := by
  refine ⟨rfl, fun h => by simp [should_upload, h], fun h => by simp [should_upload, h]⟩

/-- Witness for C2: identical timestamps, one translated string, upload. -/
theorem should_upload_spec_witness :
    ((⟨⟨7⟩⟩ : FeedMessage).header.timestamp = (⟨⟨7⟩⟩ : FeedMessage).header.timestamp)
    ∧ (should_upload (some ⟨⟨7⟩⟩) ⟨⟨7⟩⟩ (some ⟨1, 2, 3⟩) = true
        ↔ 0 < (⟨1, 2, 3⟩ : ProcessingMetrics).strings_translated) :=
  ⟨rfl, (should_upload_spec ⟨⟨7⟩⟩ ⟨⟨7⟩⟩ ⟨1, 2, 3⟩ none).2.2 rfl⟩

/-- C3: the retry loop does not make a second 401 fatal.  With the oracle
answering 401, 401, success, the call succeeds on its third attempt, and
only five consecutive 401 rejections exhaust the loop (raising the
rate-limit wrapper around the last 401).  The claim that a second
authentication rejection aborts translate_batch is therefore contradicted
by the code, whose own docstring ("Retry on 401 once") states the claimed
behavior. -/
theorem translate_batch_single_lang_401_divergence :
    translate_batch_single_lang [.err 401, .err 401, .ok ["hola"]] = .success ["hola"]
    ∧ translate_batch_single_lang [.err 401, .err 401, .err 401, .err 401, .err 401]
        = .exhausted 401 :=
  ⟨rfl, rfl⟩

/-- C10: for a field whose English text is non-empty after stripping
whitespace, translation application never appends an entry whose text is
identical to the English text, in either the protobuf or the JSON form;
a provider result equal to the English source is silently dropped. -/
theorem applyTranslations_never_copies_english
    (ts : TranslatedString) (jts : List JTranslation) (m : TransMap) (tls : List String)
    (e : String) (he : pyStrip e ≠ "")
    (hts : getEnglishText ts = some e) (hjs : getEnglishTextJson jts = some e) :
    (∀ t ∈ (applyTranslations ts m tls).drop ts.length, t.text ≠ e)
    ∧ (∀ t ∈ (applyTranslationsJson jts m tls).drop jts.length, t.text ≠ some e) := by
  constructor
  · intro t ht
    rw [applyTranslations, List.drop_left] at ht
    rcases pbAdditions_inv ht with ⟨e', he', _, _, _, hc⟩
    rw [hts] at he'
    cases he'
    rcases hc with hc | hc
    · exact hc
    · exact absurd hc he
  · intro t ht
    rw [applyTranslationsJson, List.drop_left] at ht
    rcases jsonAdditions_inv ht with ⟨e', lang, he', _, _, _, tt, htt, _, hc⟩
    rw [hjs] at he'
    cases he'
    rw [htt]
    rcases hc with hc | hc
    · simpa using hc
    · exact absurd hc he

/-- Witness for C10: the map carries the English text itself as the "es"
translation, and it is not applied. -/
theorem applyTranslations_never_copies_english_witness :
    pyStrip "Delay" ≠ ""
    ∧ getEnglishText [⟨"en", "Delay"⟩] = some "Delay"
    ∧ (∀ t ∈ (applyTranslations [⟨"en", "Delay"⟩]
        [("Delay", [("es", "Delay")])] ["es"]).drop 1, t.text ≠ "Delay") :=
  ⟨by decide, by decide,
    (applyTranslations_never_copies_english [⟨"en", "Delay"⟩] [⟨some "en", some "Delay"⟩]
      [("Delay", [("es", "Delay")])] ["es"] "Delay"
      (by decide) (by decide) (by decide)).1⟩

/-- C9 counterexample: the code tests for the substring locale= anywhere in
the URL, not for a locale query parameter.  For the English URL
http://x.com?nolocale=1, which has no locale parameter, the claim demands
appending the locale parameter with an ampersand, but the code copies the
English URL unchanged. -/
theorem processUrl_claim_counterexample :
    claimHasLocaleQueryParam ("http://x.com?nolocale=1") = false
    ∧ processUrl [⟨"en", "http://x.com?nolocale=1"⟩] ["es"]
        = [⟨"en", "http://x.com?nolocale=1"⟩, ⟨"es", "http://x.com?nolocale=1"⟩]
    ∧ ¬ (⟨"es", "http://x.com?nolocale=1&locale=es"⟩ : Translation)
          ∈ processUrl [⟨"en", "http://x.com?nolocale=1"⟩] ["es"] := by
  refine ⟨by decide, by decide, by decide⟩

/-- C9 as amended: for the canonical English URL of the url field and every
target language lacking an explicit entry, if the English URL contains the
substring locale= anywhere, an entry carrying the English URL unchanged is
added for that language; otherwise an entry is added with locale appended
after a question mark when the URL has none, after an ampersand when it
does. -/
theorem processUrl_locale_rule (ts : TranslatedString) (tls : List String) (lang u : String)
    (hu : englishUrlOf ts = u) (hne : u ≠ "") (hl : lang ∈ tls)
    (hex : lang ∉ ts.map Translation.language) :
    (hasLocaleSubstr u = true → (⟨lang, u⟩ : Translation) ∈ processUrl ts tls)
    ∧ (hasLocaleSubstr u = false →
        (⟨lang, u ++ (if hasQueryMark u then "&" else "?") ++ "locale=" ++ lang⟩ : Translation)
          ∈ processUrl ts tls) := by
  constructor
  · intro hloc
    rw [processUrl]
    simp only [hu, if_neg hne]
    refine List.mem_append_right _ (List.mem_filterMap.mpr ⟨lang, hl, ?_⟩)
    simp [hex, hloc]
  · intro hloc
    rw [processUrl]
    simp only [hu, if_neg hne]
    refine List.mem_append_right _ (List.mem_filterMap.mpr ⟨lang, hl, ?_⟩)
    simp [hex, hloc]

/-- Witness for C9 as amended: the spec's first example, where target es on
http://x.com yields http://x.com?locale=es. -/
theorem processUrl_locale_rule_witness :
    englishUrlOf [⟨"en", "http://x.com"⟩] = "http://x.com"
    ∧ hasLocaleSubstr ("http://x.com") = false
    ∧ (⟨"es", "http://x.com?locale=es"⟩ : Translation)
        ∈ processUrl [⟨"en", "http://x.com"⟩] ["es"] := by
  refine ⟨by decide, by decide, ?_⟩
  have h := (processUrl_locale_rule [⟨"en", "http://x.com"⟩] ["es"] "es" "http://x.com"
    (by decide) (by decide) (by decide) (by decide)).2 (by decide)
  simpa using h

/-! ### Lemmas about the string pipeline -/

theorem alookup_isSome_iff {κ α : Type} [DecidableEq κ] (l : List (κ × α)) (k : κ) :
    (alookup l k).isSome = true ↔ k ∈ l.map Prod.fst := by
  induction l with
  | nil => simp [alookup]
  | cons hd tl ih =>
    obtain ⟨k0, v0⟩ := hd
    by_cases h : k0 = k
    · simp [alookup, h]
    · simp [alookup, h, ih, Ne.symm h]

theorem alookup_append_left {κ α : Type} [DecidableEq κ] {l₁ : List (κ × α)} (l₂ : List (κ × α))
    {k : κ} (h : (alookup l₁ k).isSome = true) : alookup (l₁ ++ l₂) k = alookup l₁ k := by
  rw [alookup_append]
  cases hl : alookup l₁ k with
  | none => rw [hl] at h; cases h
  | some v => rfl

theorem seedMap_keys (n : List String) (o : TransMap) : (seedMap n o).map Prod.fst = n := by
  simp [seedMap, List.map_map, Function.comp_def]

theorem seedMap_filter_keys (n : List String) (o : TransMap) :
    ((seedMap n o).filter (fun q => pyStrip q.1 != "")).map Prod.fst
      = n.filter (fun e => pyStrip e != "") := by
  induction n with
  | nil => simp [seedMap]
  | cons e n ih =>
    by_cases h : pyStrip e != ""
    · simpa [seedMap, List.filter_cons, h] using ih
    · simpa [seedMap, List.filter_cons, h] using ih

theorem mem_missingEnglish {m : TransMap} {tls : List String} {x : String}
    (hx : x ∈ missingEnglish m tls) : pyStrip x ≠ "" := by
  rcases List.mem_map.mp hx with ⟨q, hq, hq1⟩
  have := List.of_mem_filter hq
  rw [Bool.and_eq_true] at this
  subst hq1
  simpa using this.1

theorem requestSet_strip_ne {m : TransMap} {tls : List String} {aa : Bool} {x : String}
    (hx : x ∈ requestSet m tls aa) : pyStrip x ≠ "" := by
  unfold requestSet at hx
  cases aa with
  | false => exact mem_missingEnglish hx
  | true =>
    by_cases h : (missingEnglish m tls).isEmpty
    · simp [h] at hx
    · rw [if_pos rfl, if_neg h] at hx
      rcases List.mem_map.mp hx with ⟨q, hq, hq1⟩
      have := List.of_mem_filter hq
      subst hq1
      simpa using this

theorem requestSet_always_all_nonempty (m : TransMap) (tls : List String)
    (h : missingEnglish m tls ≠ []) :
    requestSet m tls true = (m.filter (fun p => pyStrip p.1 != "")).map Prod.fst := by
  have h' : (missingEnglish m tls).isEmpty = false := by
    cases hm : missingEnglish m tls with
    | nil => exact absurd hm h
    | cons a l => rfl
  simp [requestSet, h']

theorem requestSet_always_all_empty (m : TransMap) (tls : List String)
    (h : missingEnglish m tls = []) : requestSet m tls true = [] := by
  simp [requestSet, h]

theorem msetEntry_isSome (m : TransMap) (x lang t e : String)
    (h : (alookup m e).isSome = true) : (alookup (msetEntry m x lang t) e).isSome = true := by
  unfold msetEntry
  cases hx : alookup m x with
  | some tr => exact alookup_aset_isSome _ _ _ _ h
  | none => rw [alookup_append_left _ h]; exact h

theorem lookupTM_msetEntry (m : TransMap) (x l t e lang : String) :
    lookupTM (msetEntry m x l t) e lang =
      if x = e ∧ l = lang then some t else lookupTM m e lang := by
  unfold msetEntry lookupTM
  cases hx : alookup m x with
  | some tr =>
    by_cases hxe : x = e
    · subst hxe
      rw [alookup_aset_self, hx]
      by_cases hll : l = lang
      · subst hll; simp [alookup_aset_self]
      · simp [hll, alookup_aset_ne _ _ _ _ hll]
    · rw [alookup_aset_ne _ _ _ _ hxe]
      simp [hxe]
  | none =>
    by_cases hxe : x = e
    · subst hxe
      rw [alookup_append, hx]
      simp only [alookup, if_pos rfl]
      by_cases hll : l = lang
      · subst hll; simp [alookup]
      · simp [hll, alookup, hx]
    · rw [alookup_append]
      have h1 : alookup [(x, [(l, t)])] e = none := by simp [alookup, hxe]
      cases hme : alookup m e <;> simp [h1, hxe, hme]

theorem zipWrite_preserve (l : List (String × Option String)) (la text lang : String) :
    ∀ m : TransMap, (∀ p ∈ l, ∀ t, p.2 = some t → ¬(p.1 = text ∧ la = lang)) →
      lookupTM (l.foldl
          (fun acc p =>
            match p.2 with
            | some t => msetEntry acc p.1 la t
            | none => acc) m) text lang = lookupTM m text lang := by
  induction l with
  | nil => intro m _; rfl
  | cons p l ih =>
    intro m h
    obtain ⟨x, t?⟩ := p
    cases t? with
    | none =>
      simpa using ih m (fun q hq => h q (List.mem_cons_of_mem _ hq))
    | some t =>
      have hstep := ih (msetEntry m x la t) (fun q hq => h q (List.mem_cons_of_mem _ hq))
      simp only [List.foldl_cons] at hstep ⊢
      rw [hstep, lookupTM_msetEntry]
      have hne : ¬(x = text ∧ la = lang) := h (x, some t) (List.mem_cons_self _ _) t rfl
      simp [hne]

theorem applyLangResults_preserve (m : TransMap) (needed : List String) (la : String)
    (trs : List (Option String)) (text lang : String)
    (h : ∀ p ∈ needed.zip trs, ∀ t, p.2 = some t → ¬(p.1 = text ∧ la = lang)) :
    lookupTM (applyLangResults m needed la trs) text lang = lookupTM m text lang :=
  zipWrite_preserve (needed.zip trs) la text lang m h

theorem applyLangResults_isSome (m : TransMap) (needed : List String) (la : String)
    (trs : List (Option String)) (e : String) (h : (alookup m e).isSome = true) :
    (alookup (applyLangResults m needed la trs) e).isSome = true := by
  unfold applyLangResults
  induction needed.zip trs generalizing m with
  | nil => exact h
  | cons p l ih =>
    obtain ⟨x, t?⟩ := p
    cases t? with
    | none => simpa using ih m h
    | some t =>
      simp only [List.foldl_cons]
      exact ih _ (msetEntry_isSome m x la t e h)

theorem applyProviderResults_fst (m : TransMap) (needed : List String)
    (results : List (String × List (Option String))) :
    (applyProviderResults m needed results).1 =
      results.foldl (fun mm r => applyLangResults mm needed r.1 r.2) m := by
  unfold applyProviderResults
  suffices h : ∀ c : Nat, ((results.foldl
      (fun acc p => (applyLangResults acc.1 needed p.1 p.2, acc.2 + p.2.countP Option.isSome))
      (m, c)).1 = results.foldl (fun mm r => applyLangResults mm needed r.1 r.2) m) from h 0
  induction results generalizing m with
  | nil => intro c; rfl
  | cons r rs ih => intro c; exact ih _ _

theorem applyProviderResults_snd (m : TransMap) (needed : List String)
    (results : List (String × List (Option String))) :
    (applyProviderResults m needed results).2 =
      (results.map (fun r => r.2.countP Option.isSome)).sum := by
  unfold applyProviderResults
  suffices h : ∀ c : Nat, ((results.foldl
      (fun acc p => (applyLangResults acc.1 needed p.1 p.2, acc.2 + p.2.countP Option.isSome))
      (m, c)).2 = c + (results.map (fun r => r.2.countP Option.isSome)).sum) by
    simpa using h 0
  induction results generalizing m with
  | nil => intro c; simp
  | cons r rs ih =>
    intro c
    simp only [List.foldl_cons, List.map_cons, List.sum_cons]
    rw [ih]
    omega

theorem applyProviderResults_isSome (m : TransMap) (needed : List String)
    (results : List (String × List (Option String))) (e : String)
    (h : (alookup m e).isSome = true) :
    (alookup (applyProviderResults m needed results).1 e).isSome = true := by
  rw [applyProviderResults_fst]
  induction results generalizing m with
  | nil => exact h
  | cons r rs ih =>
    simp only [List.foldl_cons]
    exact ih _ (applyLangResults_isSome m needed r.1 r.2 e h)

theorem applyProviderResults_preserve (m : TransMap) (needed : List String)
    (results : List (String × List (Option String))) (text lang : String)
    (h : ∀ r ∈ results, r.1 = lang → ∀ p ∈ needed.zip r.2, p.1 = text → p.2 = none) :
    lookupTM (applyProviderResults m needed results).1 text lang = lookupTM m text lang := by
  rw [applyProviderResults_fst]
  induction results generalizing m with
  | nil => rfl
  | cons r rs ih =>
    simp only [List.foldl_cons]
    rw [ih _ (fun q hq => h q (List.mem_cons_of_mem _ hq))]
    apply applyLangResults_preserve
    intro p hp t hpt hcon
    have hr := h r (List.mem_cons_self _ _) hcon.2 p hp hcon.1
    rw [hr] at hpt
    cases hpt

theorem alookup_eq_of_nodup {κ α : Type} [DecidableEq κ] {l : List (κ × α)} {k : κ} {v : α}
    (hl : alookup l k = some v) (hnd : (l.map Prod.fst).Nodup) :
    ∀ r ∈ l, r.1 = k → r.2 = v := by
  induction l with
  | nil => intro r hr; cases hr
  | cons hd tl ih =>
    obtain ⟨k0, v0⟩ := hd
    intro r hr hrk
    rcases List.mem_cons.mp hr with hr | hr
    · subst hr
      simp only at hrk
      rw [alookup, if_pos hrk] at hl
      cases hl
      rfl
    · by_cases h0 : k0 = k
      · exfalso
        have : k0 ∈ tl.map Prod.fst := by
          rw [h0, ← hrk]
          exact List.mem_map_of_mem Prod.fst hr
        exact (List.nodup_cons.mp hnd).1 this
      · rw [alookup, if_neg h0] at hl
        exact ih hl (List.nodup_cons.mp hnd).2 r hr hrk

theorem forceEmpty_cons (k : String) (tr : LangMap) (tl : TransMap) (tls : List String) :
    forceEmpty ((k, tr) :: tl) tls =
      (if pyStrip k = "" then (k, tls.foldl (fun a lang => aset a lang "") tr) else (k, tr))
        :: forceEmpty tl tls := rfl

theorem forceEmpty_alookup_empty (m : TransMap) (tls : List String) (e : String)
    (he : pyStrip e = "") :
    alookup (forceEmpty m tls) e =
      (alookup m e).map (fun tr => tls.foldl (fun a lang => aset a lang "") tr) := by
  induction m with
  | nil => rfl
  | cons hd tl ih =>
    obtain ⟨k, tr⟩ := hd
    rw [forceEmpty_cons]
    by_cases hks : pyStrip k = ""
    · rw [if_pos hks]
      by_cases hk : k = e
      · subst hk; simp [alookup]
      · simp only [alookup, if_neg hk]
        exact ih
    · rw [if_neg hks]
      by_cases hk : k = e
      · subst hk; exact absurd he hks
      · simp only [alookup, if_neg hk]
        exact ih

theorem forceEmpty_alookup_keep (m : TransMap) (tls : List String) (e : String)
    (he : pyStrip e ≠ "") : alookup (forceEmpty m tls) e = alookup m e := by
  induction m with
  | nil => rfl
  | cons hd tl ih =>
    obtain ⟨k, tr⟩ := hd
    rw [forceEmpty_cons]
    by_cases hks : pyStrip k = ""
    · rw [if_pos hks]
      by_cases hk : k = e
      · subst hk; exact absurd hks he
      · simp only [alookup, if_neg hk]
        exact ih
    · rw [if_neg hks]
      by_cases hk : k = e
      · subst hk; simp [alookup]
      · simp only [alookup, if_neg hk]
        exact ih

theorem alookup_foldl_aset_notmem (tr : LangMap) (L : List String) (l : String) (h : l ∉ L) :
    alookup (L.foldl (fun a x => aset a x "") tr) l = alookup tr l := by
  induction L generalizing tr with
  | nil => rfl
  | cons x L ih =>
    simp only [List.foldl_cons]
    rw [ih _ (fun hm => h (List.mem_cons_of_mem _ hm))]
    exact alookup_aset_ne _ _ _ _ (fun hx => h (hx ▸ List.mem_cons_self _ _))

theorem alookup_foldl_aset_mem (tr : LangMap) (L : List String) (l : String) (h : l ∈ L) :
    alookup (L.foldl (fun a x => aset a x "") tr) l = some "" := by
  induction L generalizing tr with
  | nil => cases h
  | cons x L ih =>
    simp only [List.foldl_cons]
    by_cases hm : l ∈ L
    · exact ih _ hm
    · have hx : x = l := by
        rcases List.mem_cons.mp h with h | h
        · exact h.symm
        · exact absurd h hm
      rw [alookup_foldl_aset_notmem _ _ _ hm, hx, alookup_aset_self]

theorem processStrings_request (n : List String) (o : TransMap) (tls : List String) (aa : Bool)
    (p : List String → List String → List (String × List (Option String))) :
    (processStrings n o tls aa p).request = requestSet (seedMap n o) tls aa := rfl

theorem processStrings_finalMap (n : List String) (o : TransMap) (tls : List String) (aa : Bool)
    (p : List String → List String → List (String × List (Option String))) :
    (processStrings n o tls aa p).finalMap =
      forceEmpty
        (if (requestSet (seedMap n o) tls aa).isEmpty then (seedMap n o, 0)
         else applyProviderResults (seedMap n o) (requestSet (seedMap n o) tls aa)
            (p (requestSet (seedMap n o) tls aa) tls)).1 tls := rfl

theorem processStrings_translated (n : List String) (o : TransMap) (tls : List String) (aa : Bool)
    (p : List String → List String → List (String × List (Option String))) :
    (processStrings n o tls aa p).stringsTranslated =
      (if (requestSet (seedMap n o) tls aa).isEmpty then (seedMap n o, 0)
       else applyProviderResults (seedMap n o) (requestSet (seedMap n o) tls aa)
          (p (requestSet (seedMap n o) tls aa) tls)).2 := rfl

theorem lookupTM_forceEmpty_keep (m : TransMap) (tls : List String) (e lang : String)
    (he : pyStrip e ≠ "") : lookupTM (forceEmpty m tls) e lang = lookupTM m e lang := by
  unfold lookupTM
  rw [forceEmpty_alookup_keep _ _ _ he]

theorem pbAdditions_of_english {ts : TranslatedString} {m : TransMap} {tls : List String}
    {e : String} (h : getEnglishText ts = some e) :
    pbAdditions ts m tls = tls.filterMap (fun lang =>
      if lang ∈ ts.map Translation.language then none
      else
        match lookupTM m e lang with
        | none => none
        | some translatedText =>
            if translatedText ≠ e ∨ pyStrip e = "" then some ⟨lang, translatedText⟩
            else none) := by
  unfold pbAdditions
  rw [h]

/-- C4: in always-translate-all mode, when some non-empty new English text
is missing a target language, the request set sent to the provider is every
text of the new English set that is non-empty after stripping, not only the
missing ones; and when nothing is missing, no provider call is made at all
(the request set is empty and the run's outcome does not depend on the
provider). -/
theorem processStrings_always_translate_all
    (newEnglish : List String) (oldMap : TransMap) (tls : List String)
    (provider : List String → List String → List (String × List (Option String))) :
    (missingEnglish (seedMap newEnglish oldMap) tls ≠ [] →
      (processStrings newEnglish oldMap tls true provider).request
        = newEnglish.filter (fun e => pyStrip e != ""))
    ∧ (missingEnglish (seedMap newEnglish oldMap) tls = [] →
      (processStrings newEnglish oldMap tls true provider).request = []
      ∧ ∀ q, processStrings newEnglish oldMap tls true provider
          = processStrings newEnglish oldMap tls true q) := by
  constructor
  · intro h
    rw [processStrings_request, requestSet_always_all_nonempty _ _ h, seedMap_filter_keys]
  · intro h
    have hreq : requestSet (seedMap newEnglish oldMap) tls true = [] :=
      requestSet_always_all_empty _ _ h
    exact ⟨by rw [processStrings_request, hreq], fun q => by simp [processStrings, hreq]⟩

/-- Witness for C4: one untranslated text "b" forces the already-complete
text "a" into the request set as well. -/
theorem processStrings_always_translate_all_witness :
    missingEnglish (seedMap ["a", "b"] [("a", [("es", "A")])]) ["es"] ≠ []
    ∧ (processStrings ["a", "b"] [("a", [("es", "A")])] ["es"] true
        (fun texts langs => langs.map (fun lang => (lang, texts.map (fun t => some (lang ++ t)))))).request
      = ["a", "b"].filter (fun e => pyStrip e != "") :=
  ⟨by decide,
    (processStrings_always_translate_all ["a", "b"] [("a", [("es", "A")])] ["es"]
      (fun texts langs =>
        langs.map (fun lang => (lang, texts.map (fun t => some (lang ++ t)))))).1 (by decide)⟩

/-- C5: an English source text that is empty or all-whitespace ends up with
the empty string recorded for every target language, is never part of the
provider request set, and translation application adds the empty-string
entry to a field carrying it as English for every target language not
already present. -/
theorem processStrings_empty_source
    (newEnglish : List String) (oldMap : TransMap) (tls : List String) (aa : Bool)
    (provider : List String → List String → List (String × List (Option String)))
    (e : String) (ts : TranslatedString)
    (he : e ∈ newEnglish) (hempty : pyStrip e = "") (hts : getEnglishText ts = some e) :
    (∀ lang ∈ tls,
      lookupTM (processStrings newEnglish oldMap tls aa provider).finalMap e lang = some "")
    ∧ e ∉ (processStrings newEnglish oldMap tls aa provider).request
    ∧ (∀ lang ∈ tls, lang ∉ ts.map Translation.language →
        (⟨lang, ""⟩ : Translation)
          ∈ applyTranslations ts (processStrings newEnglish oldMap tls aa provider).finalMap tls) := by
  have hkey : (alookup (seedMap newEnglish oldMap) e).isSome = true := by
    rw [alookup_isSome_iff, seedMap_keys]
    exact he
  have hmid : (alookup
      (if (requestSet (seedMap newEnglish oldMap) tls aa).isEmpty then (seedMap newEnglish oldMap, 0)
       else applyProviderResults (seedMap newEnglish oldMap)
          (requestSet (seedMap newEnglish oldMap) tls aa)
          (provider (requestSet (seedMap newEnglish oldMap) tls aa) tls)).1 e).isSome = true := by
    by_cases hq : (requestSet (seedMap newEnglish oldMap) tls aa).isEmpty
    · rw [if_pos hq]; exact hkey
    · rw [if_neg hq]; exact applyProviderResults_isSome _ _ _ _ hkey
  obtain ⟨tr, htr⟩ := Option.isSome_iff_exists.mp hmid
  have ha : ∀ lang ∈ tls,
      lookupTM (processStrings newEnglish oldMap tls aa provider).finalMap e lang = some "" := by
    intro lang hl
    rw [processStrings_finalMap]
    unfold lookupTM
    rw [forceEmpty_alookup_empty _ _ _ hempty, htr]
    simpa using alookup_foldl_aset_mem tr tls lang hl
  refine ⟨ha, ?_, ?_⟩
  · rw [processStrings_request]
    intro hmem
    exact requestSet_strip_ne hmem hempty
  · intro lang hl hex
    apply List.mem_append_right
    rw [pbAdditions_of_english hts]
    refine List.mem_filterMap.mpr ⟨lang, hl, ?_⟩
    rw [if_neg hex, ha lang hl]
    exact if_pos (Or.inr hempty)

/-- Witness for C5 at the empty English string. -/
theorem processStrings_empty_source_witness :
    pyStrip "" = ""
    ∧ (∀ lang ∈ ["es"],
        lookupTM (processStrings [""] [] ["es"] false (fun _ _ => [])).finalMap "" lang
          = some "")
    ∧ "" ∉ (processStrings [""] [] ["es"] false (fun _ _ => [])).request
    ∧ (∀ lang ∈ ["es"], lang ∉ ([⟨"en", ""⟩] : TranslatedString).map Translation.language →
        (⟨lang, ""⟩ : Translation)
          ∈ applyTranslations [⟨"en", ""⟩]
              (processStrings [""] [] ["es"] false (fun _ _ => [])).finalMap ["es"]) :=
  ⟨rfl,
    (processStrings_empty_source [""] [] ["es"] false (fun _ _ => []) "" [⟨"en", ""⟩]
      (by decide) rfl (by decide)).1,
    (processStrings_empty_source [""] [] ["es"] false (fun _ _ => []) "" [⟨"en", ""⟩]
      (by decide) rfl (by decide)).2.1,
    (processStrings_empty_source [""] [] ["es"] false (fun _ _ => []) "" [⟨"en", ""⟩]
      (by decide) rfl (by decide)).2.2⟩

/-- C6 counterexample: the code counts reuse only for entries whose English
text is non-empty after stripping.  With new English text "" whose old
entry carries an es translation, the claim's sum over every merged entry is
1, but the metric is 0. -/
theorem reused_metric_counterexample :
    (processStrings [""] [("", [("es", "x")])] ["es"] false
        (fun _ _ => [])).translationsReused
      ≠ claimReusedCount (seedMap [""] [("", [("es", "x")])]) ["es"] := by
  decide

/-- C6 as amended: the translationsReused metric equals the sum, over every
entry of the merged map whose English text is non-empty after stripping
whitespace and over every target language, of 1 when that language is
present in the entry; the count is taken on the seeded map, before and
independently of any provider call. -/
theorem reused_metric_spec (newEnglish : List String) (oldMap : TransMap) (tls : List String)
    (aa : Bool) (provider : List String → List String → List (String × List (Option String))) :
    (processStrings newEnglish oldMap tls aa provider).translationsReused
      = ((seedMap newEnglish oldMap).map
          (fun p => if pyStrip p.1 = "" then 0
            else tls.countP (fun lang => hasKey p.2 lang))).sum
    ∧ ∀ q, (processStrings newEnglish oldMap tls aa provider).translationsReused
        = (processStrings newEnglish oldMap tls aa q).translationsReused :=
  ⟨rfl, fun _ => rfl⟩

/-- C7: a null provider result for a (text, language) pair is not written
into the merged map (the pair's entry is exactly what the seeded map held),
and the stringsTranslated metric counts exactly the non-null results the
provider returned. -/
theorem processStrings_null_results
    (newEnglish : List String) (oldMap : TransMap) (tls : List String) (aa : Bool)
    (provider : List String → List String → List (String × List (Option String)))
    (text lang : String) (trs : List (Option String))
    (hlang : alookup (provider (requestSet (seedMap newEnglish oldMap) tls aa) tls) lang
        = some trs)
    (hnodup : ((provider (requestSet (seedMap newEnglish oldMap) tls aa) tls).map
        Prod.fst).Nodup)
    (hmem : text ∈ requestSet (seedMap newEnglish oldMap) tls aa)
    (hnull : ∀ p ∈ (requestSet (seedMap newEnglish oldMap) tls aa).zip trs,
        p.1 = text → p.2 = none) :
    lookupTM (processStrings newEnglish oldMap tls aa provider).finalMap text lang
      = lookupTM (seedMap newEnglish oldMap) text lang
    ∧ (processStrings newEnglish oldMap tls aa provider).stringsTranslated
      = ((provider (requestSet (seedMap newEnglish oldMap) tls aa) tls).map
          (fun r => r.2.countP Option.isSome)).sum := by
  have hq : (requestSet (seedMap newEnglish oldMap) tls aa).isEmpty = false := by
    cases hr : requestSet (seedMap newEnglish oldMap) tls aa with
    | nil => rw [hr] at hmem; cases hmem
    | cons a l => rfl
  have hstrip := requestSet_strip_ne hmem
  constructor
  · have hred : (processStrings newEnglish oldMap tls aa provider).finalMap
        = forceEmpty (applyProviderResults (seedMap newEnglish oldMap)
            (requestSet (seedMap newEnglish oldMap) tls aa)
            (provider (requestSet (seedMap newEnglish oldMap) tls aa) tls)).1 tls := by
      rw [processStrings_finalMap, hq]
      rfl
    rw [hred, lookupTM_forceEmpty_keep _ _ _ _ hstrip]
    apply applyProviderResults_preserve
    intro r hr hrlang p hp hptext
    have hrt : r.2 = trs := alookup_eq_of_nodup hlang hnodup r hr hrlang
    rw [hrt] at hp
    exact hnull p hp hptext
  · rw [processStrings_translated, hq]
    exact applyProviderResults_snd _ _ _

/-- Witness for C7: the provider answers null for ("a", es); the merged map
entry stays as seeded and zero strings count as translated. -/
theorem processStrings_null_results_witness :
    ("a" ∈ requestSet (seedMap ["a"] []) ["es"] false)
    ∧ lookupTM (processStrings ["a"] [] ["es"] false
          (fun _ _ => [("es", [none])])).finalMap "a" "es"
        = lookupTM (seedMap ["a"] []) "a" "es"
    ∧ (processStrings ["a"] [] ["es"] false
          (fun _ _ => [("es", [none])])).stringsTranslated = 0 :=
  ⟨by decide,
    (processStrings_null_results ["a"] [] ["es"] false (fun _ _ => [("es", [none])])
      "a" "es" [none] (by decide) (by decide) (by decide) (by decide)).1,
    by
      rw [(processStrings_null_results ["a"] [] ["es"] false (fun _ _ => [("es", [none])])
        "a" "es" [none] (by decide) (by decide) (by decide) (by decide)).2]
      decide⟩

/-! ### Lemmas about the enhanced-JSON fill-only merge -/

theorem alookup_append_or {κ α : Type} [DecidableEq κ] (l₁ l₂ : List (κ × α)) (k : κ) :
    alookup (l₁ ++ l₂) k = (alookup l₁ k).or (alookup l₂ k) := by
  rw [alookup_append]
  cases alookup l₁ k <;> rfl

theorem fillOnly_cons (cur : List (String × Json)) (k0 : String) (v0 : Json)
    (orig : List (String × Json)) :
    fillOnly cur ((k0, v0) :: orig) =
      fillOnly (if hasKey cur k0 then cur else cur ++ [(k0, v0)]) orig := rfl

theorem fillOnly_alookup (orig cur : List (String × Json)) (k : String) :
    alookup (fillOnly cur orig) k = (alookup cur k).or (alookup orig k) := by
  induction orig generalizing cur with
  | nil =>
    show alookup cur k = (alookup cur k).or (alookup ([] : List (String × Json)) k)
    cases alookup cur k <;> rfl
  | cons hd orig ih =>
    obtain ⟨k0, v0⟩ := hd
    rw [fillOnly_cons]
    by_cases h0 : hasKey cur k0
    · rw [if_pos h0, ih]
      cases hc : alookup cur k with
      | some v => rfl
      | none =>
        have hk0 : k0 ≠ k := by
          intro he
          subst he
          unfold hasKey at h0
          rw [hc] at h0
          cases h0
        simp [alookup, hk0]
    · rw [if_neg h0, ih, alookup_append_or]
      cases hc : alookup cur k with
      | some v => rfl
      | none =>
        by_cases hk : k0 = k
        · subst hk; simp [alookup]
        · simp [alookup, hk]

theorem mergeAlertInto_lookup_ne (efs ofs : List (String × Json)) (k : String)
    (hk : k ≠ "alert") : alookup (mergeAlertInto efs ofs) k = alookup efs k := by
  unfold mergeAlertInto
  split
  · exact alookup_aset_ne _ _ _ _ (Ne.symm hk)
  · rfl

theorem alertFieldsOf_aset (fs : List (String × Json)) (x : List (String × Json)) :
    alertFieldsOf (aset fs "alert" (.obj x)) = x := by
  unfold alertFieldsOf
  rw [alookup_aset_self]

theorem alertFieldsOf_eq_of_obj {fs : List (String × Json)} {a : List (String × Json)}
    (h : alookup fs "alert" = some (.obj a)) : alertFieldsOf fs = a := by
  unfold alertFieldsOf
  rw [h]

theorem alertFieldsOf_eq_none {fs : List (String × Json)}
    (h : alookup fs "alert" = none) : alertFieldsOf fs = [] := by
  unfold alertFieldsOf
  rw [h]

theorem mergedEntity_alert_lookup (efs mofs : List (String × Json))
    (halc : ∀ v, alookup efs "alert" = some v → ∃ a, v = Json.obj a)
    (halo : ∀ v, alookup mofs "alert" = some v → ∃ a, v = Json.obj a) (k : String) :
    alookup (alertFieldsOf (mergeAlertInto (fillOnly efs mofs) mofs)) k
      = (alookup (alertFieldsOf efs) k).or (alookup (alertFieldsOf mofs) k) := by
  cases hce : alookup efs "alert" with
  | some v =>
    obtain ⟨a, rfl⟩ := halc v hce
    have h1 : alookup (fillOnly efs mofs) "alert" = some (Json.obj a) := by
      rw [fillOnly_alookup, hce]; rfl
    cases hco : alookup mofs "alert" with
    | some w =>
      obtain ⟨oa, rfl⟩ := halo w hco
      unfold mergeAlertInto
      rw [h1, hco]
      show alookup (alertFieldsOf
        (aset (fillOnly efs mofs) "alert" (Json.obj (fillOnly a oa)))) k = _
      rw [alertFieldsOf_aset, fillOnly_alookup, alertFieldsOf_eq_of_obj hce,
        alertFieldsOf_eq_of_obj hco]
    | none =>
      unfold mergeAlertInto
      rw [h1, hco]
      show alookup (alertFieldsOf (fillOnly efs mofs)) k = _
      rw [alertFieldsOf_eq_of_obj h1, alertFieldsOf_eq_of_obj hce, alertFieldsOf_eq_none hco]
      cases alookup a k <;> rfl
  | none =>
    cases hco : alookup mofs "alert" with
    | some w =>
      obtain ⟨oa, rfl⟩ := halo w hco
      have h1 : alookup (fillOnly efs mofs) "alert" = some (Json.obj oa) := by
        rw [fillOnly_alookup, hce, hco]; rfl
      unfold mergeAlertInto
      rw [h1, hco]
      show alookup (alertFieldsOf
        (aset (fillOnly efs mofs) "alert" (Json.obj (fillOnly oa oa)))) k = _
      rw [alertFieldsOf_aset, fillOnly_alookup, alertFieldsOf_eq_none hce,
        alertFieldsOf_eq_of_obj hco]
      cases alookup oa k <;> rfl
    | none =>
      have h1 : alookup (fillOnly efs mofs) "alert" = none := by
        rw [fillOnly_alookup, hce, hco]; rfl
      unfold mergeAlertInto
      rw [h1, hco]
      show alookup (alertFieldsOf (fillOnly efs mofs)) k = _
      rw [alertFieldsOf_eq_none h1, alertFieldsOf_eq_none hce, alertFieldsOf_eq_none hco]
      rfl

theorem mergeEntityFields_no_match (idx : List (Option Json × Json))
    (efs : List (String × Json)) (h : jlookupK idx (entityIdOf efs) = none) :
    mergeEntityFields idx efs = .obj efs := by
  unfold mergeEntityFields
  rw [h]

theorem mergeEntityFields_match (idx : List (Option Json × Json))
    (efs mofs : List (String × Json))
    (h : jlookupK idx (entityIdOf efs) = some (.obj mofs)) (hne : mofs ≠ []) :
    mergeEntityFields idx efs = .obj (mergeAlertInto (fillOnly efs mofs) mofs) := by
  have hie : mofs.isEmpty = false := by
    cases mofs with
    | nil => exact absurd rfl hne
    | cons a l => rfl
  unfold mergeEntityFields
  rw [h]
  show (if mofs.isEmpty then Json.obj efs
    else Json.obj (mergeAlertInto (fillOnly efs mofs) mofs)) = _
  rw [hie]
  rfl

/-- C8: JSON serialization with an original overlay merges by a fill-only
rule.  For every entity of the derived tree, the result replaces it by its
merge against the original entity of the same identifier: an entity with no
identifier match is left unchanged; for a matched entity, every
entity-level key of the derived entity keeps its value (looked up first),
every entity-level key present only in the original is copied in, and the
same holds at alert level, as the Option.or of the two lookups. -/
theorem mergeEnhancedFields_fill_only
    (cfs : List (String × Json)) (es : List Json) (original : Json)
    (i : Nat) (efs : List (String × Json))
    (hce : alookup cfs "entity" = some (.arr es))
    (hei : es[i]? = some (.obj efs)) :
    (mergeEnhancedFields (.obj cfs) original
        = .obj (aset cfs "entity"
            (.arr (es.map (mergeEntity (origIndex (entityList original)))))))
    ∧ ((es.map (mergeEntity (origIndex (entityList original))))[i]?
        = some (mergeEntityFields (origIndex (entityList original)) efs))
    ∧ (jlookupK (origIndex (entityList original)) (entityIdOf efs) = none →
        mergeEntityFields (origIndex (entityList original)) efs = .obj efs)
    ∧ (∀ mofs : List (String × Json),
        jlookupK (origIndex (entityList original)) (entityIdOf efs) = some (.obj mofs) →
        mofs ≠ [] →
        (∀ v, alookup efs "alert" = some v → ∃ a, v = Json.obj a) →
        (∀ v, alookup mofs "alert" = some v → ∃ a, v = Json.obj a) →
        ∃ rfs : List (String × Json),
          mergeEntityFields (origIndex (entityList original)) efs = .obj rfs
          ∧ (∀ k, k ≠ "alert" → alookup rfs k = (alookup efs k).or (alookup mofs k))
          ∧ (∀ k, alookup (alertFieldsOf rfs) k
              = (alookup (alertFieldsOf efs) k).or (alookup (alertFieldsOf mofs) k))) := by
  refine ⟨?_, ?_, mergeEntityFields_no_match _ _, ?_⟩
  · simp only [mergeEnhancedFields]
    rw [hce]
  · rw [List.getElem?_map, hei]
    rfl
  · intro mofs hm hne halc halo
    refine ⟨mergeAlertInto (fillOnly efs mofs) mofs,
      mergeEntityFields_match _ _ _ hm hne, ?_, ?_⟩
    · intro k hk
      rw [mergeAlertInto_lookup_ne _ _ _ hk, fillOnly_alookup]
    · exact mergedEntity_alert_lookup efs mofs halc halo

/-- Witness for C8 on a concrete pair of trees: the enhanced entity-level
key and the extra alert-level key are filled in, keys the derived entity
already set keep their values. -/
theorem mergeEnhancedFields_fill_only_witness :
    (mergeEnhancedFields sampleCurrent sampleOriginal
        = .obj (aset sampleCurrentFields "entity"
            (.arr ([Json.obj sampleCurrentEntity].map
              (mergeEntity (origIndex (entityList sampleOriginal)))))))
    ∧ alookup sampleMergedEntity "effect_detail"
        = (alookup sampleCurrentEntity "effect_detail").or
            (alookup sampleOriginalEntity "effect_detail")
    ∧ alookup (alertFieldsOf sampleMergedEntity) "severity"
        = (alookup (alertFieldsOf sampleCurrentEntity) "severity").or
            (alookup (alertFieldsOf sampleOriginalEntity) "severity")
    ∧ alookup (alertFieldsOf sampleMergedEntity) "header"
        = (alookup (alertFieldsOf sampleCurrentEntity) "header").or
            (alookup (alertFieldsOf sampleOriginalEntity) "header") := by
  obtain ⟨h1, h2, h3, h4⟩ := mergeEnhancedFields_fill_only sampleCurrentFields
    [Json.obj sampleCurrentEntity] sampleOriginal 0 sampleCurrentEntity rfl rfl
  obtain ⟨rfs, hr, hent, halert⟩ := h4 sampleOriginalEntity rfl
    (by intro h; simp [sampleOriginalEntity] at h)
    (fun v h => ⟨[("header", Json.str "h")], by
      have h' : some (Json.obj [("header", Json.str "h")]) = some v := h
      exact (Option.some.inj h').symm⟩)
    (fun v h => ⟨[("severity", Json.num 3), ("header", Json.str "orig")], by
      have h' : some (Json.obj [("severity", Json.num 3), ("header", Json.str "orig")])
          = some v := h
      exact (Option.some.inj h').symm⟩)
  have hrfs : rfs = sampleMergedEntity := by
    have h5 : Json.obj sampleMergedEntity = Json.obj rfs := hr
    injection h5 with h5
    exact h5.symm
  subst hrfs
  exact ⟨h1, hent _ (by decide), halert _, halert _⟩

end Gtfs
